import Mathlib

/-!
Verification of the balance computation and validation engine of the
401(k) portal (src/utils/investmentUtils.js).

Modelling conventions:
* JavaScript numbers are modelled as exact rationals (ℚ); integer ids as ℤ.
  Statements proved exactly over ℚ subsume the spec's floating-point
  tolerances (1e-9, 1e-6).
* Form-input values (the string-typed request fields and allocation
  percentages coming from the UI) are modelled by `JSStr`: the empty
  string, a canonical numeric string carrying its value, or a
  non-numeric string (whose numeric coercion is NaN).
* `parseFloat`/`parseInt` return `Option` values, `none` playing the
  role of NaN; a JavaScript `===` comparison against NaN is false,
  captured by `jsEqZ`/`jsEqOpt`.
* The calculator functions (`calculateTransferPreview`,
  `calculateReallocationPreview`) are modelled after the numeric
  coercions have succeeded: ids are ℤ, amounts and percentages ℚ.
  Allocation maps reaching the reallocation calculator carry either a
  numeric value or the empty placeholder (`Option ℚ`), mirroring the
  `undefined / '' / numeric` distinction of the source.
-/

namespace Portal

/-- A balance entry: one (fund, contribution-type) pair with its units,
NAV and derived monetary balance. -/
structure Balance where
  fundId : ℤ
  contributionTypeId : ℤ
  units : ℚ
  nav : ℚ
  balance : ℚ
  deriving DecidableEq, Repr

/-- A fund reference record; only its id is consulted by the engine. -/
structure Fund where
  id : ℤ
  deriving DecidableEq, Repr

/-- Validation result, mirroring `{valid, error}` ( `error: null` on
success becomes `none`). -/
structure VResult where
  valid : Bool
  error : Option String
  deriving DecidableEq, Repr

/-- A form-input string: empty, a canonical numeric string with value
`q`, or a non-numeric string (numeric coercion NaN). -/
inductive JSStr where
  | empty : JSStr
  | num : ℚ → JSStr
  | junk : JSStr
  deriving DecidableEq, Repr

/-- JavaScript truthiness of a string: every non-empty string is truthy. -/
def JSStr.truthy : JSStr → Bool
  | .empty => false
  | _ => true

/-- Truncation toward zero, as JavaScript `parseInt` applied to a
numeric string (T-division of numerator by denominator). -/
def truncQ (q : ℚ) : ℤ :=
  q.num.tdiv q.den

/-- `parseFloat` on a form string; `none` is NaN. -/
def JSStr.parseFloat : JSStr → Option ℚ
  | .num q => some q
  | _ => none

/-- `parseInt` on a form string; `none` is NaN. -/
def JSStr.parseInt : JSStr → Option ℤ
  | .num q => some (truncQ q)
  | _ => none

/-- JavaScript `===` between a number and a possibly-NaN number:
`NaN === x` is always false. -/
def jsEqZ (z : ℤ) : Option ℤ → Bool
  | some w => z == w
  | none => false

/-- JavaScript `===` between two possibly-NaN numbers. -/
def jsEqOpt : Option ℤ → Option ℤ → Bool
  | some x, some y => x == y
  | _, _ => false

/-- `⌊|q| + 1/2⌋` as natural-number arithmetic: the magnitude of `q`
rounded to the nearest integer, halves away from zero (the
`Intl.NumberFormat` default rounding). -/
def roundHalfAwayMag (q : ℚ) : ℕ :=
  (2 * q.num.natAbs + q.den) / (2 * q.den)

/-- Digit groups of a reversed digit list, three at a time, for
thousands separators. -/
def groupRev : List Char → List (List Char)
  | [] => []
  | [a] => [[a]]
  | [a, b] => [[a, b]]
  | a :: b :: c :: rest => [a, b, c] :: groupRev rest

/-- Decimal rendering of a natural number with `,` thousands
separators. -/
def commaGroup (n : ℕ) : String :=
  let revGroups := groupRev (toString n).toList.reverse
  String.mk (List.intercalate [','] (revGroups.map List.reverse).reverse)

/-- `formatCurrency`: whole-dollar en-US currency rendering
(`Intl.NumberFormat` with 0 fraction digits): sign, `$`, grouped
rounded magnitude. -/
def formatCurrency (amount : ℚ) : String :=
  let n := roundHalfAwayMag amount
  if amount < 0 then "-$" ++ commaGroup n else "$" ++ commaGroup n

/-- Two-digit rendering of a residue below 100. -/
def pad2 (n : ℕ) : String :=
  if n < 10 then "0" ++ toString n else toString n

/-- `Number.prototype.toFixed(2)`: sign, then the magnitude rounded
half-up to hundredths (`⌊|q| * 100 + 1/2⌋` in ℕ arithmetic). -/
def toFixed2 (q : ℚ) : String :=
  let sign := if q < 0 then "-" else ""
  let n := (200 * q.num.natAbs + q.den) / (2 * q.den)
  sign ++ toString (n / 100) ++ "." ++ pad2 (n % 100)

/-- A transfer request as it leaves the form: four string fields. -/
structure TransferRequest where
  fromFund : JSStr
  fromType : JSStr
  toFund : JSStr
  amount : JSStr
  deriving DecidableEq, Repr

/-- `getBalance`: balance of the first entry matching the coerced
(fundId, typeId) key, `0` when none matches. -/
def getBalance (balances : List Balance) (fundId typeId : JSStr) : ℚ :=
  match balances.find? (fun b =>
      jsEqZ b.fundId fundId.parseInt && jsEqZ b.contributionTypeId typeId.parseInt) with
  | some b => b.balance
  | none => 0

/-- `validateTransfer`: field presence, positive parsed amount,
distinct funds, and sufficient available balance, in source order. -/
def validateTransfer (req : TransferRequest) (balances : List Balance) : VResult :=
  if !req.fromFund.truthy || !req.fromType.truthy || !req.toFund.truthy || !req.amount.truthy then
    ⟨false, some "All transfer fields are required"⟩
  else
    match req.amount.parseFloat with
    | none => ⟨false, some "Transfer amount must be greater than zero"⟩
    | some transferAmount =>
      if transferAmount ≤ 0 then
        ⟨false, some "Transfer amount must be greater than zero"⟩
      else if jsEqOpt req.fromFund.parseInt req.toFund.parseInt then
        ⟨false, some "Source and target funds must be different"⟩
      else
        let availableBalance := getBalance balances req.fromFund req.fromType
        if availableBalance < transferAmount then
          ⟨false, some ("Insufficient balance. Available: " ++ formatCurrency availableBalance)⟩
        else
          ⟨true, none⟩

/-- The per-entry rejection test of `validateReallocation`:
`percentage !== '' && (isNaN(percentage) || parseFloat(percentage) < 0
|| parseFloat(percentage) > 100)`. -/
def offendingAlloc : JSStr → Bool
  | .empty => false
  | .junk => true
  | .num q => decide (q < 0) || decide (100 < q)

/-- Numeric value an allocation entry contributes to the total
(`val === '' ? 0 : parseFloat(val)`).  The `junk` branch is
unreachable in context: a non-numeric entry is rejected by the loop
before the total is computed. -/
def allocNum : JSStr → ℚ
  | .num q => q
  | _ => 0

/-- `validateReallocation`: reject on the first entry outside [0,100]
or non-numeric, else require the total within 0.01 of 100. -/
def validateReallocation (allocations : List (ℤ × JSStr)) : VResult :=
  match allocations.find? (fun p => offendingAlloc p.2) with
  | some p =>
      ⟨false, some ("Invalid allocation for fund ID " ++ toString p.1 ++ ". Must be between 0 and 100%")⟩
  | none =>
      let total := (allocations.map (fun p => allocNum p.2)).sum
      if 1/100 < |total - 100| then
        ⟨false, some ("Total allocation must equal 100%. Current total: " ++ toFixed2 total ++ "%")⟩
      else
        ⟨true, none⟩

/-- `calculateUnitsFromAmount`: units bought by `amount` at price `nav`. -/
def calculateUnitsFromAmount (amount nav : ℚ) : ℚ :=
  amount / nav

/-- `calculateBalance`: monetary balance of `units` at price `nav`. -/
def calculateBalance (units nav : ℚ) : ℚ :=
  units * nav

/-- The (fundId, contributionTypeId) key test used by the transfer
calculator's `find` calls. -/
def matchKey (f t : ℤ) (b : Balance) : Bool :=
  b.fundId == f && b.contributionTypeId == t

/-- In-place mutation of the first list element satisfying `p`, as the
source's `find`-then-assign idiom. -/
def updateFirst (p : α → Bool) (f : α → α) : List α → List α
  | [] => []
  | x :: xs => if p x then f x :: xs else x :: updateFirst p f xs

/-- The source-entry mutation of the transfer:
`units -= amount / sourceNav; balance = units * nav`. -/
def debitSource (amount sourceNav : ℚ) (b : Balance) : Balance :=
  let u := b.units - calculateUnitsFromAmount amount sourceNav
  { b with units := u, balance := calculateBalance u b.nav }

/-- The target-entry mutation of the transfer:
`units += amount / targetBalance.nav; balance = units * nav`. -/
def creditTarget (amount : ℚ) (b : Balance) : Balance :=
  let u := b.units + calculateUnitsFromAmount amount b.nav
  { b with units := u, balance := calculateBalance u b.nav }

/-- `calculateTransferPreview` after numeric coercion of the request:
deep-copy (identity on immutable values), locate the source entry,
debit it, then credit the existing target entry or push a fresh
zero entry (same contribution-type bucket) and credit it. -/
def calculateTransferPreview (fromFund fromType toFund : ℤ) (amount : ℚ)
    (balances : List Balance) : List Balance :=
  let updatedBalances := balances
  match updatedBalances.find? (matchKey fromFund fromType) with
  | none => updatedBalances
  | some sourceBalance =>
    let sourceNav := sourceBalance.nav
    -- `find(...)?.nav || sourceNav`: a found NAV of 0 is falsy.
    let targetNav :=
      match updatedBalances.find? (matchKey toFund fromType) with
      | some tb => if tb.nav = 0 then sourceNav else tb.nav
      | none => sourceNav
    let afterSource :=
      updateFirst (matchKey fromFund fromType) (debitSource amount sourceNav) updatedBalances
    match afterSource.find? (matchKey toFund fromType) with
    | some _ =>
        updateFirst (matchKey toFund fromType) (creditTarget amount) afterSource
    | none =>
        afterSource ++ [creditTarget amount ⟨toFund, fromType, 0, targetNav, 0⟩]

/-- `allocations[fund.id]` on the coerced allocation map: `none` is
`undefined`, `some none` the empty-string placeholder. -/
def jsLookup (allocations : List (ℤ × Option ℚ)) (j : ℤ) : Option (Option ℚ) :=
  (allocations.find? (fun p => p.1 == j)).map (·.2)

/-- The per-entry mutation of the reallocation loop body
(`fundBalances.forEach(balance => ...)`, expressed as a conditional
rewrite of each entry of the working set): an entry of the fund moves
to its proportional share of `targetAmount`, any other entry is left
alone. -/
def applyAlloc (targetAmount fundTotal : ℚ) (n : ℕ) (fundId : ℤ) (b : Balance) : Balance :=
  if b.fundId == fundId then
    let proportion :=
      if 0 < fundTotal then b.balance / fundTotal
      else 1 / (n : ℚ)
    let newBalance := targetAmount * proportion
    let u := calculateUnitsFromAmount newBalance b.nav
    { b with units := u, balance := calculateBalance u b.nav }
  else b

/-- One iteration of the reallocation loop: skip funds without a
numeric percentage, otherwise move every entry of the fund to its
proportional share of `totalBalance * percentage / 100`. -/
def stepRealloc (allocations : List (ℤ × Option ℚ)) (totalBalance : ℚ)
    (ub : List Balance) (fund : Fund) : List Balance :=
  match jsLookup allocations fund.id with
  | none => ub
  | some none => ub
  | some (some percentage) =>
    let targetAmount := totalBalance * percentage / 100
    let fundBalances := ub.filter (fun b => b.fundId == fund.id)
    let fundTotal := (fundBalances.map (·.balance)).sum
    ub.map (applyAlloc targetAmount fundTotal fundBalances.length fund.id)

/-- `calculateReallocationPreview`: grand total first, then the
per-fund loop over the fund reference list. -/
def calculateReallocationPreview (allocations : List (ℤ × Option ℚ))
    (balances : List Balance) (funds : List Fund) : List Balance :=
  let updatedBalances := balances
  let totalBalance := (updatedBalances.map (·.balance)).sum
  funds.foldl (stepRealloc allocations totalBalance) updatedBalances

/-! ## Claim theorems -/

/-- C10: `validateReallocation` on the empty allocation map rejects
with the total-allocation error reporting a current total of 0.00%,
rather than accepting vacuously. -/
theorem validateReallocation_empty_rejects :
    validateReallocation [] =
      ⟨false, some "Total allocation must equal 100%. Current total: 0.00%"⟩ := by
  unfold validateReallocation
  norm_num [toFixed2, pad2]
  rfl

/-- C8: when no balance entry matches the request's source key,
`calculateTransferPreview` returns the input balance set unchanged
(defensive no-op). -/
theorem transferPreview_noSource (fromFund fromType toFund : ℤ) (amount : ℚ)
    (balances : List Balance)
    (h : balances.find? (matchKey fromFund fromType) = none) :
    calculateTransferPreview fromFund fromType toFund amount balances = balances := by
  simp [calculateTransferPreview, h]

/-- Witness for C8 at a concrete input: a one-entry set with no
(2, 1) entry is returned unchanged by a (2,1) → 3 transfer. -/
theorem transferPreview_noSource_witness :
    ([⟨1, 1, 10, 10, 100⟩] : List Balance).find? (matchKey 2 1) = none ∧
      calculateTransferPreview 2 1 3 100 [⟨1, 1, 10, 10, 100⟩] = [⟨1, 1, 10, 10, 100⟩] :=
  ⟨rfl, transferPreview_noSource 2 1 3 100 [⟨1, 1, 10, 10, 100⟩] rfl⟩

/-- C5: a transfer request whose four fields are present (truthy) but
whose amount fails to parse to a number greater than zero is rejected
with the InvalidAmount error. -/
theorem validateTransfer_nonpositive_amount (req : TransferRequest)
    (balances : List Balance)
    (h1 : req.fromFund.truthy = true) (h2 : req.fromType.truthy = true)
    (h3 : req.toFund.truthy = true) (h4 : req.amount.truthy = true)
    (h5 : req.amount.parseFloat = none ∨
      ∃ a : ℚ, req.amount.parseFloat = some a ∧ a ≤ 0) :
    validateTransfer req balances =
      ⟨false, some "Transfer amount must be greater than zero"⟩ := by
  unfold validateTransfer
  rw [h1, h2, h3, h4]
  rcases h5 with h5 | ⟨a, ha, ha0⟩
  · simp [h5]
  · simp [ha, ha0]

/-- Witness for C5: transferring the negative amount −5 with all
fields filled is rejected with the InvalidAmount message. -/
theorem validateTransfer_nonpositive_amount_witness :
    validateTransfer ⟨.num 1, .num 1, .num 2, .num (-5)⟩ [] =
      ⟨false, some "Transfer amount must be greater than zero"⟩ :=
  validateTransfer_nonpositive_amount ⟨.num 1, .num 1, .num 2, .num (-5)⟩ []
    rfl rfl rfl rfl (Or.inr ⟨-5, rfl, by norm_num⟩)

/-- C6: for a request past the presence, positive-amount and
distinct-fund checks, `validateTransfer` rejects exactly when the
amount exceeds the available balance (0 when no entry matches), the
rejection message contains the formatted available amount, and
otherwise the result is valid. -/
theorem validateTransfer_insufficient_iff (req : TransferRequest)
    (balances : List Balance) (a : ℚ)
    (h1 : req.fromFund.truthy = true) (h2 : req.fromType.truthy = true)
    (h3 : req.toFund.truthy = true) (h4 : req.amount.truthy = true)
    (h5 : req.amount.parseFloat = some a) (h6 : 0 < a)
    (h7 : jsEqOpt req.fromFund.parseInt req.toFund.parseInt = false) :
    (getBalance balances req.fromFund req.fromType < a →
      validateTransfer req balances =
        ⟨false, some ("Insufficient balance. Available: " ++
          formatCurrency (getBalance balances req.fromFund req.fromType))⟩ ∧
      ∃ pre post, validateTransfer req balances =
        ⟨false, some (pre ++ formatCurrency (getBalance balances req.fromFund req.fromType) ++ post)⟩) ∧
    (a ≤ getBalance balances req.fromFund req.fromType →
      validateTransfer req balances = ⟨true, none⟩) := by
  unfold validateTransfer
  rw [h1, h2, h3, h4, h5, h7]
  simp only [Bool.not_true, Bool.false_or, Bool.or_self, Bool.false_eq_true,
    if_false, not_lt.mpr h6.le, if_neg (not_le.mpr h6)]
  constructor
  · intro hlt
    rw [if_pos hlt]
    exact ⟨rfl, "Insufficient balance. Available: ", "", by rw [String.append_empty]⟩
  · intro hle
    rw [if_neg (not_lt.mpr hle)]

/-- Witness for C6, the spec's own example: available $500, request
$501 rejected with a message containing `$500`; request $500
accepted. -/
theorem validateTransfer_insufficient_iff_witness :
    validateTransfer ⟨.num 1, .num 1, .num 2, .num 501⟩ [⟨1, 1, 50, 10, 500⟩] =
      ⟨false, some "Insufficient balance. Available: $500"⟩ ∧
    validateTransfer ⟨.num 1, .num 1, .num 2, .num 500⟩ [⟨1, 1, 50, 10, 500⟩] =
      ⟨true, none⟩ := by
  constructor
  · exact ((validateTransfer_insufficient_iff ⟨.num 1, .num 1, .num 2, .num 501⟩
      [⟨1, 1, 50, 10, 500⟩] 501 rfl rfl rfl rfl rfl (by norm_num) (by decide)).1
        (by decide)).1.trans (by decide)
  · exact (validateTransfer_insufficient_iff ⟨.num 1, .num 1, .num 2, .num 500⟩
      [⟨1, 1, 50, 10, 500⟩] 500 rfl rfl rfl rfl rfl (by norm_num) (by decide)).2
      (by decide)

/-- Claim-side condition on an allocation value: non-empty and not
parsing as a number in [0, 100] (a non-parsing value satisfies the
inner clause vacuously). -/
def badAllocVal (v : JSStr) : Prop :=
  v ≠ .empty ∧ ∀ q : ℚ, v.parseFloat = some q → (q < 0 ∨ 100 < q)

/-- Claim-side total of an allocation map: parsed percentages, empty
entries counting as 0. -/
def allocTotal (allocations : List (ℤ × JSStr)) : ℚ :=
  (allocations.map (fun p => (p.2.parseFloat).getD 0)).sum

theorem offendingAlloc_iff (v : JSStr) : offendingAlloc v = true ↔ badAllocVal v := by
  cases v with
  | empty => simp [offendingAlloc, badAllocVal]
  | num q =>
      simp only [offendingAlloc, badAllocVal, JSStr.parseFloat, Bool.or_eq_true,
        decide_eq_true_eq, ne_eq, Option.some.injEq]
      constructor
      · rintro h
        exact ⟨by simp, fun q' hq' => hq' ▸ h⟩
      · rintro ⟨_, h⟩
        exact h q rfl
  | junk =>
      simp only [offendingAlloc, badAllocVal, JSStr.parseFloat, ne_eq, true_iff]
      exact ⟨by simp, fun q hq => by cases hq⟩

theorem allocNum_eq_parse (v : JSStr) : allocNum v = (v.parseFloat).getD 0 := by
  cases v <;> rfl

/-- C7: `validateReallocation` rejects naming an offending fund id
when some non-empty entry does not parse as a number in [0, 100];
with no offending entry it rejects reporting the two-decimal total
when that total is off 100 by more than 0.01, and accepts
otherwise. -/
theorem validateReallocation_spec (allocations : List (ℤ × JSStr)) :
    ((∃ p ∈ allocations, badAllocVal p.2) →
      ∃ fid v, ((fid, v) ∈ allocations) ∧ badAllocVal v ∧
        validateReallocation allocations =
          ⟨false, some ("Invalid allocation for fund ID " ++ toString fid ++ ". Must be between 0 and 100%")⟩) ∧
    ((∀ p ∈ allocations, ¬ badAllocVal p.2) →
      (1/100 < |allocTotal allocations - 100| →
        validateReallocation allocations =
          ⟨false, some ("Total allocation must equal 100%. Current total: " ++ toFixed2 (allocTotal allocations) ++ "%")⟩) ∧
      (|allocTotal allocations - 100| ≤ 1/100 →
        validateReallocation allocations = ⟨true, none⟩)) := by
  have htot : (allocations.map (fun p => allocNum p.2)).sum = allocTotal allocations := by
    unfold allocTotal
    have : (fun p : ℤ × JSStr => allocNum p.2) =
        (fun p : ℤ × JSStr => (p.2.parseFloat).getD 0) := by
      funext p
      exact allocNum_eq_parse p.2
    rw [this]
  constructor
  · rintro ⟨p, hp, hbad⟩
    cases hfind : allocations.find? (fun p => offendingAlloc p.2) with
    | none =>
        exact absurd ((offendingAlloc_iff p.2).mpr hbad)
          (by simpa using List.find?_eq_none.mp hfind p hp)
    | some w =>
        refine ⟨w.1, w.2, ?_, ?_, ?_⟩
        · simpa using List.mem_of_find?_eq_some hfind
        · exact (offendingAlloc_iff w.2).mp (by simpa using List.find?_some hfind)
        · unfold validateReallocation
          rw [hfind]
  · intro hall
    have hfind : allocations.find? (fun p => offendingAlloc p.2) = none := by
      refine List.find?_eq_none.mpr (fun p hp => ?_)
      simpa [offendingAlloc_iff] using hall p hp
    unfold validateReallocation
    rw [hfind]
    simp only [htot]
    constructor
    · intro h
      rw [if_pos h]
    · intro h
      rw [if_neg (not_lt.mpr h)]

/-- Witness for C7: `{1: 110}` rejected naming fund 1; `{1: 60, 2: 30}`
rejected with total 90.00%; `{1: 60, 2: 40}` accepted. -/
theorem validateReallocation_spec_witness :
    (∃ fid v, ((fid, v) ∈ [((1 : ℤ), JSStr.num 110)]) ∧ badAllocVal v ∧
      validateReallocation [((1 : ℤ), JSStr.num 110)] =
        ⟨false, some ("Invalid allocation for fund ID " ++ toString fid ++ ". Must be between 0 and 100%")⟩) ∧
    validateReallocation [((1 : ℤ), JSStr.num 60), (2, JSStr.num 30)] =
      ⟨false, some "Total allocation must equal 100%. Current total: 90.00%"⟩ ∧
    validateReallocation [((1 : ℤ), JSStr.num 60), (2, JSStr.num 40)] = ⟨true, none⟩ := by
  have hall30 : ∀ p ∈ [((1 : ℤ), JSStr.num 60), (2, JSStr.num 30)], ¬ badAllocVal p.2 := by
    intro p hp
    simp only [List.mem_cons, List.mem_singleton, List.not_mem_nil, or_false] at hp
    rcases hp with rfl | rfl
    · rintro ⟨-, h⟩; have := h 60 rfl; norm_num at this
    · rintro ⟨-, h⟩; have := h 30 rfl; norm_num at this
  have hall40 : ∀ p ∈ [((1 : ℤ), JSStr.num 60), (2, JSStr.num 40)], ¬ badAllocVal p.2 := by
    intro p hp
    simp only [List.mem_cons, List.mem_singleton, List.not_mem_nil, or_false] at hp
    rcases hp with rfl | rfl
    · rintro ⟨-, h⟩; have := h 60 rfl; norm_num at this
    · rintro ⟨-, h⟩; have := h 40 rfl; norm_num at this
  have h30 : allocTotal [((1 : ℤ), JSStr.num 60), (2, JSStr.num 30)] = 90 := by
    norm_num [allocTotal, JSStr.parseFloat]
  have h40 : allocTotal [((1 : ℤ), JSStr.num 60), (2, JSStr.num 40)] = 100 := by
    norm_num [allocTotal, JSStr.parseFloat]
  refine ⟨(validateReallocation_spec _).1
      ⟨(1, .num 110), by simp, ⟨by simp, fun q hq => ?_⟩⟩, ?_, ?_⟩
  · rw [show q = 110 from (by simpa [JSStr.parseFloat] using hq.symm)]
    norm_num
  · have h := ((validateReallocation_spec _).2 hall30).1 (by rw [h30]; norm_num)
    rw [h, h30]
    rfl
  · exact ((validateReallocation_spec _).2 hall40).2 (by rw [h40]; norm_num)

/-- The balance/units/NAV identity of the data model. -/
def BalInv (e : Balance) : Prop :=
  e.balance = e.units * e.nav

instance decBalInv (e : Balance) : Decidable (BalInv e) :=
  inferInstanceAs (Decidable (e.balance = e.units * e.nav))

theorem balInv_debitSource (amount sourceNav : ℚ) (b : Balance) :
    BalInv (debitSource amount sourceNav b) := rfl

theorem balInv_creditTarget (amount : ℚ) (b : Balance) :
    BalInv (creditTarget amount b) := rfl

theorem mem_updateFirst {p : α → Bool} {f : α → α} {y : α} :
    ∀ {l : List α}, y ∈ updateFirst p f l → y ∈ l ∨ ∃ x ∈ l, y = f x
  | [], h => by cases h
  | x :: xs, h => by
      by_cases hx : p x
      · rw [updateFirst, if_pos hx] at h
        rcases List.mem_cons.mp h with h | h
        · exact Or.inr ⟨x, List.mem_cons_self x xs, h⟩
        · exact Or.inl (List.mem_cons_of_mem x h)
      · rw [updateFirst, if_neg hx] at h
        rcases List.mem_cons.mp h with h | h
        · exact Or.inl (h ▸ List.mem_cons_self x xs)
        · rcases mem_updateFirst h with h' | ⟨z, hz, hy⟩
          · exact Or.inl (List.mem_cons_of_mem x h')
          · exact Or.inr ⟨z, List.mem_cons_of_mem x hz, hy⟩

theorem stepRealloc_invariant {allocations : List (ℤ × Option ℚ)} {T : ℚ}
    {ub : List Balance} {fund : Fund} (h : ∀ e ∈ ub, BalInv e) :
    ∀ e ∈ stepRealloc allocations T ub fund, BalInv e := by
  intro e he
  cases hl : jsLookup allocations fund.id with
  | none =>
      rw [stepRealloc, hl] at he
      exact h e he
  | some op =>
      cases op with
      | none =>
          rw [stepRealloc, hl] at he
          exact h e he
      | some pct =>
          simp only [stepRealloc, hl] at he
          rcases List.mem_map.mp he with ⟨b, hb, rfl⟩
          by_cases hid : (b.fundId == fund.id) = true
          · simp [BalInv, applyAlloc, calculateBalance, hid]
          · simp only [applyAlloc, hid, Bool.false_eq_true, if_false]
            exact h b hb

theorem foldRealloc_invariant {allocations : List (ℤ × Option ℚ)} {T : ℚ}
    (funds : List Fund) (ub : List Balance) (h : ∀ e ∈ ub, BalInv e) :
    ∀ e ∈ funds.foldl (stepRealloc allocations T) ub, BalInv e := by
  induction funds generalizing ub with
  | nil => exact h
  | cons fd fds ih => exact ih _ (stepRealloc_invariant h)

/-- C3: both calculator calls preserve the `balance = units * nav`
identity: if every input entry satisfies it, so does every entry of
the returned set (exactly, hence within any tolerance). -/
theorem calculator_preserves_invariant (fromFund fromType toFund : ℤ) (amount : ℚ)
    (allocations : List (ℤ × Option ℚ)) (funds : List Fund) (bals : List Balance)
    (hinv : ∀ e ∈ bals, BalInv e) :
    (∀ e ∈ calculateTransferPreview fromFund fromType toFund amount bals, BalInv e) ∧
    (∀ e ∈ calculateReallocationPreview allocations bals funds, BalInv e) := by
  constructor
  · intro e he
    cases hs : bals.find? (matchKey fromFund fromType) with
    | none =>
        simp only [calculateTransferPreview, hs] at he
        exact hinv e he
    | some sb =>
        simp only [calculateTransferPreview, hs] at he
        have hAfter : ∀ e' ∈ updateFirst (matchKey fromFund fromType)
            (debitSource amount sb.nav) bals, BalInv e' := by
          intro e' he'
          rcases mem_updateFirst he' with h' | ⟨x, -, rfl⟩
          · exact hinv e' h'
          · exact balInv_debitSource _ _ x
        cases ht : (updateFirst (matchKey fromFund fromType)
            (debitSource amount sb.nav) bals).find? (matchKey toFund fromType) with
        | none =>
            rw [ht] at he
            rcases List.mem_append.mp he with h' | h'
            · exact hAfter e h'
            · rw [List.mem_singleton.mp h']
              exact balInv_creditTarget _ _
        | some tb =>
            rw [ht] at he
            rcases mem_updateFirst he with h' | ⟨x, -, rfl⟩
            · exact hAfter e h'
            · exact balInv_creditTarget _ x
  · exact foldRealloc_invariant funds bals hinv

/-- Witness for C3 on the spec's concrete scenario (both a transfer
and a reallocation over the same two-entry set). -/
theorem calculator_preserves_invariant_witness :
    (∀ e ∈ ([⟨1, 1, 100, 10, 1000⟩, ⟨2, 1, 50, 20, 1000⟩] : List Balance), BalInv e) ∧
    ((∀ e ∈ calculateTransferPreview 1 1 2 200 [⟨1, 1, 100, 10, 1000⟩, ⟨2, 1, 50, 20, 1000⟩], BalInv e) ∧
     (∀ e ∈ calculateReallocationPreview [(1, some 25), (2, some 75)]
        [⟨1, 1, 100, 10, 1000⟩, ⟨2, 1, 50, 20, 1000⟩] [⟨1⟩, ⟨2⟩], BalInv e)) :=
  ⟨by norm_num [List.forall_mem_cons, BalInv],
   calculator_preserves_invariant 1 1 2 200 [(1, some 25), (2, some 75)]
    [⟨1⟩, ⟨2⟩] [⟨1, 1, 100, 10, 1000⟩, ⟨2, 1, 50, 20, 1000⟩]
    (by norm_num [List.forall_mem_cons, BalInv])⟩

theorem stepRealloc_skip {allocations : List (ℤ × Option ℚ)} {T : ℚ}
    {ub : List Balance} {fund : Fund}
    (hl : jsLookup allocations fund.id = none ∨ jsLookup allocations fund.id = some none) :
    stepRealloc allocations T ub fund = ub := by
  rcases hl with hl | hl <;> rw [stepRealloc, hl]

theorem stepRealloc_getElem_preserved {allocations : List (ℤ × Option ℚ)} {T : ℚ}
    {ub : List Balance} {fund : Fund} {j : ℤ} (hfund : fund.id ≠ j)
    {i : ℕ} {b : Balance} (hi : ub[i]? = some b) (hb : b.fundId = j) :
    (stepRealloc allocations T ub fund)[i]? = some b := by
  cases hl : jsLookup allocations fund.id with
  | none => rw [stepRealloc, hl]; exact hi
  | some op =>
      cases op with
      | none => rw [stepRealloc, hl]; exact hi
      | some pct =>
          simp only [stepRealloc, hl, List.getElem?_map, hi, Option.map_some']
          have hne : (b.fundId == fund.id) = false := by
            simp [hb, (Ne.symm hfund)]
          simp only [applyAlloc, hne, Bool.false_eq_true, if_false]

theorem foldRealloc_skipped {allocations : List (ℤ × Option ℚ)} {T : ℚ} {j : ℤ}
    (hj : jsLookup allocations j = none ∨ jsLookup allocations j = some none) :
    ∀ (funds : List Fund) (ub : List Balance) (i : ℕ) (b : Balance),
      ub[i]? = some b → b.fundId = j →
      (funds.foldl (stepRealloc allocations T) ub)[i]? = some b := by
  intro funds
  induction funds with
  | nil =>
      intro ub i b hi hb
      simpa using hi
  | cons fd fds ih =>
      intro ub i b hi hb
      rw [List.foldl_cons]
      by_cases hfd : fd.id = j
      · rw [stepRealloc_skip (hfd ▸ hj)]
        exact ih ub i b hi hb
      · exact ih _ i b (stepRealloc_getElem_preserved hfd hi hb) hb

/-- C9: a fund whose id is absent from the allocation map or mapped
to the empty placeholder is skipped: each of its balance entries in
the returned set equals the entry at the same position of the input
set (units, nav and balance unchanged). -/
theorem reallocPreview_skipped_fund_untouched (allocations : List (ℤ × Option ℚ))
    (bals : List Balance) (funds : List Fund) (j : ℤ)
    (hj : jsLookup allocations j = none ∨ jsLookup allocations j = some none)
    (i : ℕ) (b : Balance) (hi : bals[i]? = some b) (hb : b.fundId = j) :
    (calculateReallocationPreview allocations bals funds)[i]? = some b :=
  foldRealloc_skipped hj funds bals i b hi hb

/-- Witness for C9: fund 1 has no entry in the allocation map
`{2: 100}`, so its entry at position 0 is returned unchanged. -/
theorem reallocPreview_skipped_fund_untouched_witness :
    (calculateReallocationPreview [(2, some 100)]
      [⟨1, 1, 100, 10, 1000⟩, ⟨2, 1, 50, 20, 1000⟩] [⟨1⟩, ⟨2⟩])[0]? =
      some ⟨1, 1, 100, 10, 1000⟩ :=
  reallocPreview_skipped_fund_untouched [(2, some 100)]
    [⟨1, 1, 100, 10, 1000⟩, ⟨2, 1, 50, 20, 1000⟩] [⟨1⟩, ⟨2⟩] 1
    (Or.inl rfl) 0 ⟨1, 1, 100, 10, 1000⟩ rfl rfl

/-! ### Helper lemmas for the transfer conservation law -/

theorem truncQ_intCast (f : ℤ) : truncQ (f : ℚ) = f := by
  simp [truncQ, Rat.num_intCast, Rat.den_intCast, Int.tdiv_one]

/-- `find?`-then-`.balance` with parsed integer keys, the source
`getBalance` after coercion. -/
def getBalanceZ (balances : List Balance) (f t : ℤ) : ℚ :=
  match balances.find? (matchKey f t) with
  | some b => b.balance
  | none => 0

theorem getBalance_num_intCast (balances : List Balance) (f t : ℤ) :
    getBalance balances (.num (f : ℚ)) (.num (t : ℚ)) = getBalanceZ balances f t := by
  unfold getBalance getBalanceZ
  simp only [JSStr.parseInt, truncQ_intCast]
  rfl

/-- The NAV of the first source-key entry (0 when absent; only used
under entry existence). -/
def sourceNavOf (balances : List Balance) (f t : ℤ) : ℚ :=
  match balances.find? (matchKey f t) with
  | some b => b.nav
  | none => 0

/-- The NAV of the first target-key entry, the source NAV when the
target entry is absent. -/
def targetNavOf (balances : List Balance) (f t g : ℤ) : ℚ :=
  match balances.find? (matchKey g t) with
  | some b => b.nav
  | none => sourceNavOf balances f t

theorem find?_updateFirst_self {p : α → Bool} {f : α → α} {x : α}
    (hf : ∀ y, p (f y) = p y) :
    ∀ {l : List α}, l.find? p = some x → (updateFirst p f l).find? p = some (f x)
  | [], h => by cases h
  | z :: zs, h => by
      by_cases hz : p z
      · rw [List.find?_cons_of_pos _ hz] at h
        rw [updateFirst, if_pos hz, List.find?_cons_of_pos _ ((hf z).trans hz)]
        exact congrArg (some ∘ f) (Option.some.inj h)
      · rw [List.find?_cons_of_neg _ hz] at h
        rw [updateFirst, if_neg hz, List.find?_cons_of_neg _ hz]
        exact find?_updateFirst_self hf h

theorem find?_updateFirst_disjoint {p q : α → Bool} {f : α → α}
    (hpq : ∀ x, p x = true → q x = false) (hf : ∀ y, q (f y) = q y) :
    ∀ (l : List α), (updateFirst p f l).find? q = l.find? q
  | [] => rfl
  | z :: zs => by
      by_cases hz : p z
      · rw [updateFirst, if_pos hz]
        have hq : q z = false := hpq z hz
        rw [List.find?_cons_of_neg _ (by simp [hf z, hq]),
          List.find?_cons_of_neg _ (by simp [hq])]
      · rw [updateFirst, if_neg hz]
        by_cases hqz : q z
        · rw [List.find?_cons_of_pos _ hqz, List.find?_cons_of_pos _ hqz]
        · rw [List.find?_cons_of_neg _ hqz, List.find?_cons_of_neg _ hqz]
          exact find?_updateFirst_disjoint hpq hf zs

theorem sum_map_updateFirst {p : Balance → Bool} {f : Balance → Balance} {x : Balance} :
    ∀ {l : List Balance}, l.find? p = some x →
      ((updateFirst p f l).map (·.balance)).sum =
        (l.map (·.balance)).sum - x.balance + (f x).balance
  | [], h => by cases h
  | z :: zs, h => by
      by_cases hz : p z
      · rw [List.find?_cons_of_pos _ hz] at h
        cases Option.some.inj h
        rw [updateFirst, if_pos hz]
        simp only [List.map_cons, List.sum_cons]
        ring
      · rw [List.find?_cons_of_neg _ hz] at h
        rw [updateFirst, if_neg hz]
        simp only [List.map_cons, List.sum_cons, sum_map_updateFirst h]
        ring

theorem validateTransfer_valid_elim {f t g : ℤ} {a : ℚ} {bals : List Balance}
    (hv : validateTransfer ⟨.num (f : ℚ), .num (t : ℚ), .num (g : ℚ), .num a⟩ bals =
      ⟨true, none⟩) :
    0 < a ∧ f ≠ g ∧ a ≤ getBalanceZ bals f t := by
  unfold validateTransfer at hv
  simp only [JSStr.truthy, JSStr.parseFloat, JSStr.parseInt, truncQ_intCast,
    Bool.not_true, Bool.or_self, Bool.false_or, if_false, Bool.false_eq_true] at hv
  rw [getBalance_num_intCast] at hv
  by_cases h0 : a ≤ 0
  · rw [if_pos h0] at hv
    cases hv
  · rw [if_neg h0] at hv
    by_cases hfg : f = g
    · rw [if_pos (by simp [jsEqOpt, hfg])] at hv
      cases hv
    · rw [if_neg (by simp [jsEqOpt, hfg])] at hv
      by_cases hlt : getBalanceZ bals f t < a
      · rw [if_pos hlt] at hv
        cases hv
      · exact ⟨lt_of_not_le h0, hfg, not_lt.mp hlt⟩

theorem find?_append_some {p : α → Bool} {x : α} :
    ∀ {l₁ : List α} (l₂ : List α), l₁.find? p = some x → (l₁ ++ l₂).find? p = some x
  | [], _, h => by cases h
  | z :: zs, l₂, h => by
      by_cases hz : p z
      · rw [List.find?_cons_of_pos _ hz] at h
        rw [List.cons_append, List.find?_cons_of_pos _ hz]
        exact h
      · rw [List.find?_cons_of_neg _ hz] at h
        rw [List.cons_append, List.find?_cons_of_neg _ hz]
        exact find?_append_some l₂ h

theorem find?_append_none {p : α → Bool} :
    ∀ {l₁ : List α} (l₂ : List α), l₁.find? p = none → (l₁ ++ l₂).find? p = l₂.find? p
  | [], _, _ => rfl
  | z :: zs, l₂, h => by
      by_cases hz : p z
      · rw [List.find?_cons_of_pos _ hz] at h
        cases h
      · rw [List.find?_cons_of_neg _ hz] at h
        rw [List.cons_append, List.find?_cons_of_neg _ hz]
        exact find?_append_none l₂ h

/-- C1: a transfer accepted by `validateTransfer` whose effective
target NAV equals the source NAV debits the source key by exactly the
amount, credits the (targetFund, sourceType) key by exactly the
amount, and leaves the grand total unchanged — exactly over ℚ, hence
within the spec's 1e-9 tolerance.  The input is a balance set of the
data model (`balance = units * nav`). -/
theorem transfer_conservation (f t g : ℤ) (a : ℚ) (bals : List Balance)
    (hinv : ∀ e ∈ bals, BalInv e)
    (hv : validateTransfer ⟨.num (f : ℚ), .num (t : ℚ), .num (g : ℚ), .num a⟩ bals =
      ⟨true, none⟩)
    (hnav : targetNavOf bals f t g = sourceNavOf bals f t) :
    getBalanceZ (calculateTransferPreview f t g a bals) f t = getBalanceZ bals f t - a ∧
    getBalanceZ (calculateTransferPreview f t g a bals) g t = getBalanceZ bals g t + a ∧
    ((calculateTransferPreview f t g a bals).map (·.balance)).sum =
      (bals.map (·.balance)).sum := by
  obtain ⟨ha, hfg, hle⟩ := validateTransfer_valid_elim hv
  obtain ⟨sb, hsb⟩ : ∃ sb, bals.find? (matchKey f t) = some sb := by
    cases hfind : bals.find? (matchKey f t) with
    | none =>
        exfalso
        simp only [getBalanceZ, hfind] at hle
        exact absurd (lt_of_lt_of_le ha hle) (lt_irrefl 0)
    | some sb => exact ⟨sb, rfl⟩
  have hsinv : sb.balance = sb.units * sb.nav := hinv sb (List.mem_of_find?_eq_some hsb)
  have hsbal : getBalanceZ bals f t = sb.balance := by
    simp only [getBalanceZ, hsb]
  have hsnav : sb.nav ≠ 0 := by
    intro h0
    rw [h0, mul_zero] at hsinv
    rw [hsbal, hsinv] at hle
    exact absurd (lt_of_lt_of_le ha hle) (lt_irrefl 0)
  have hdebg : ∀ y, matchKey g t (debitSource a sb.nav y) = matchKey g t y :=
    fun _ => rfl
  have hdebf : ∀ y, matchKey f t (debitSource a sb.nav y) = matchKey f t y :=
    fun _ => rfl
  have hcredg : ∀ y, matchKey g t (creditTarget a y) = matchKey g t y :=
    fun _ => rfl
  have hcredf : ∀ y, matchKey f t (creditTarget a y) = matchKey f t y :=
    fun _ => rfl
  have hpq : ∀ x, matchKey f t x = true → matchKey g t x = false := by
    intro x hx
    simp only [matchKey, Bool.and_eq_true, beq_iff_eq] at hx
    simp [matchKey, hx.1, hfg]
  have hqp : ∀ x, matchKey g t x = true → matchKey f t x = false := by
    intro x hx
    simp only [matchKey, Bool.and_eq_true, beq_iff_eq] at hx
    simp [matchKey, hx.1, Ne.symm hfg]
  have hASf : (updateFirst (matchKey f t) (debitSource a sb.nav) bals).find? (matchKey f t) =
      some (debitSource a sb.nav sb) := find?_updateFirst_self hdebf hsb
  have hASg : (updateFirst (matchKey f t) (debitSource a sb.nav) bals).find? (matchKey g t) =
      bals.find? (matchKey g t) := find?_updateFirst_disjoint hpq hdebg bals
  have hASsum : ((updateFirst (matchKey f t) (debitSource a sb.nav) bals).map (·.balance)).sum =
      (bals.map (·.balance)).sum - sb.balance + (debitSource a sb.nav sb).balance :=
    sum_map_updateFirst hsb
  have hdbal : (debitSource a sb.nav sb).balance = sb.balance - a := by
    show (sb.units - a / sb.nav) * sb.nav = sb.balance - a
    rw [hsinv, sub_mul, div_mul_cancel₀ _ hsnav]
  cases hT : bals.find? (matchKey g t) with
  | some tb =>
      have htnav : tb.nav = sb.nav := by
        simpa only [targetNavOf, sourceNavOf, hT, hsb] using hnav
      have htinv : tb.balance = tb.units * tb.nav :=
        hinv tb (List.mem_of_find?_eq_some hT)
      have htnav0 : tb.nav ≠ 0 := htnav ▸ hsnav
      have htbal : getBalanceZ bals g t = tb.balance := by
        simp only [getBalanceZ, hT]
      have hfind2 : (updateFirst (matchKey f t) (debitSource a sb.nav) bals).find?
          (matchKey g t) = some tb := hASg.trans hT
      have hcbal : (creditTarget a tb).balance = tb.balance + a := by
        show (tb.units + a / tb.nav) * tb.nav = tb.balance + a
        rw [htinv, add_mul, div_mul_cancel₀ _ htnav0]
      refine ⟨?_, ?_, ?_⟩
      · simp only [getBalanceZ, calculateTransferPreview, hsb, hfind2,
          find?_updateFirst_disjoint hqp hcredf, hASf, hdbal]
      · simp only [getBalanceZ, calculateTransferPreview, hsb, hT, hfind2,
          find?_updateFirst_self hcredg hfind2, hcbal]
      · simp only [calculateTransferPreview, hsb, hfind2, sum_map_updateFirst hfind2,
          hASsum, hdbal, hcbal]
        ring
  | none =>
      have hfind2 : (updateFirst (matchKey f t) (debitSource a sb.nav) bals).find?
          (matchKey g t) = none := hASg.trans hT
      have hce : (creditTarget a ⟨g, t, 0, sb.nav, 0⟩).balance = a := by
        show ((0 : ℚ) + a / sb.nav) * sb.nav = a
        rw [zero_add, div_mul_cancel₀ _ hsnav]
      have hcek : matchKey g t (creditTarget a ⟨g, t, 0, sb.nav, 0⟩) = true := by
        simp [matchKey, creditTarget]
      refine ⟨?_, ?_, ?_⟩
      · simp only [getBalanceZ, calculateTransferPreview, hsb, hT, hfind2,
          find?_append_some _ hASf, hdbal]
      · simp only [getBalanceZ, calculateTransferPreview, hsb, hT, hfind2,
          find?_append_none _ hfind2, List.find?_cons_of_pos _ hcek]
        rw [hce]
        ring
      · simp only [calculateTransferPreview, hsb, hT, hfind2, List.map_append,
          List.sum_append, hASsum, hdbal, List.map_cons, List.map_nil, List.sum_cons,
          List.sum_nil, hce]
        ring

/-- Witness for C1: the spec's conservation scenario with equal NAVs
on both sides (transfer $200 from fund 1 to fund 2, bucket 1). -/
theorem transfer_conservation_witness :
    getBalanceZ (calculateTransferPreview 1 1 2 200
      [⟨1, 1, 100, 10, 1000⟩, ⟨2, 1, 100, 10, 1000⟩]) 1 1 =
      getBalanceZ [⟨1, 1, 100, 10, 1000⟩, ⟨2, 1, 100, 10, 1000⟩] 1 1 - 200 ∧
    getBalanceZ (calculateTransferPreview 1 1 2 200
      [⟨1, 1, 100, 10, 1000⟩, ⟨2, 1, 100, 10, 1000⟩]) 2 1 =
      getBalanceZ [⟨1, 1, 100, 10, 1000⟩, ⟨2, 1, 100, 10, 1000⟩] 2 1 + 200 ∧
    ((calculateTransferPreview 1 1 2 200
      [⟨1, 1, 100, 10, 1000⟩, ⟨2, 1, 100, 10, 1000⟩]).map (·.balance)).sum =
      (([⟨1, 1, 100, 10, 1000⟩, ⟨2, 1, 100, 10, 1000⟩] : List Balance).map (·.balance)).sum :=
  transfer_conservation 1 1 2 200 [⟨1, 1, 100, 10, 1000⟩, ⟨2, 1, 100, 10, 1000⟩]
    (by norm_num [List.forall_mem_cons, BalInv])
    (by norm_num [validateTransfer, JSStr.truthy, JSStr.parseFloat, getBalance,
      JSStr.parseInt, jsEqOpt, truncQ, getBalanceZ, matchKey, jsEqZ, List.find?])
    (by decide)

/-! ### Helper lemmas for the reallocation total law -/

/-- The per-fund subtotal used by the reallocation loop. -/
def fundTotal (l : List Balance) (j : ℤ) : ℚ :=
  ((l.filter (fun b => b.fundId == j)).map (·.balance)).sum

/-- The percentage the allocation map assigns to fund `j` (0 when
absent or empty). -/
def allocPct (allocations : List (ℤ × Option ℚ)) (j : ℤ) : ℚ :=
  match jsLookup allocations j with
  | some (some p) => p
  | _ => 0

/-- Whether the allocation map carries a numeric percentage for `j`. -/
def numAlloc (allocations : List (ℤ × Option ℚ)) (j : ℤ) : Bool :=
  match jsLookup allocations j with
  | some (some _) => true
  | _ => false

theorem jsLookup_of_numAlloc {allocations : List (ℤ × Option ℚ)} {j : ℤ}
    (h : numAlloc allocations j = true) :
    jsLookup allocations j = some (some (allocPct allocations j)) := by
  unfold numAlloc at h
  unfold allocPct
  cases hl : jsLookup allocations j with
  | none => rw [hl] at h; cases h
  | some op =>
      cases op with
      | none => rw [hl] at h; cases h
      | some p => rfl

theorem sum_map_filter_split (g : Balance → ℚ) (p : Balance → Bool) :
    ∀ l : List Balance,
      ((l.filter p).map g).sum + ((l.filter (fun x => !(p x))).map g).sum = (l.map g).sum
  | [] => by simp
  | x :: xs => by
      have ih := sum_map_filter_split g p xs
      by_cases hx : p x
      · simp [List.filter_cons, hx]
        linarith [ih]
      · simp [List.filter_cons, hx]
        linarith [ih]

theorem filter_map_of_preserve (h : Balance → Balance) (q : Balance → Bool)
    (hq : ∀ b, q (h b) = q b) :
    ∀ l : List Balance, (l.map h).filter q = (l.filter q).map h
  | [] => rfl
  | x :: xs => by
      have ih := filter_map_of_preserve h q hq xs
      by_cases hx : q x
      · simp [List.filter_cons, hq, hx, ih]
      · simp [List.filter_cons, hq, hx, ih]

theorem mapCongrMem {f g : α → β} :
    ∀ {l : List α}, (∀ x ∈ l, f x = g x) → l.map f = l.map g
  | [], _ => rfl
  | x :: xs, h => by
      rw [List.map_cons, List.map_cons, h x (List.mem_cons_self x xs),
        mapCongrMem (fun y hy => h y (List.mem_cons_of_mem x hy))]

theorem sum_map_constQ {α : Type} (c : ℚ) :
    ∀ l : List α, (l.map (fun _ => c)).sum = l.length * c
  | [] => by simp
  | x :: xs => by
      simp only [List.map_cons, List.sum_cons, sum_map_constQ c xs, List.length_cons]
      push_cast
      ring

theorem sum_map_mul_rightQ {α : Type} (g : α → ℚ) (r : ℚ) :
    ∀ l : List α, (l.map (fun b => g b * r)).sum = (l.map g).sum * r
  | [] => by simp
  | x :: xs => by
      simp only [List.map_cons, List.sum_cons, sum_map_mul_rightQ g r xs]
      ring

theorem applyAlloc_fundId (tA F : ℚ) (n : ℕ) (j : ℤ) (b : Balance) :
    (applyAlloc tA F n j b).fundId = b.fundId := by
  unfold applyAlloc
  by_cases hb : (b.fundId == j) = true
  · rw [if_pos hb]
  · rw [if_neg hb]

theorem applyAlloc_nav (tA F : ℚ) (n : ℕ) (j : ℤ) (b : Balance) :
    (applyAlloc tA F n j b).nav = b.nav := by
  unfold applyAlloc
  by_cases hb : (b.fundId == j) = true
  · rw [if_pos hb]
  · rw [if_neg hb]

theorem applyAlloc_of_ne (tA F : ℚ) (n : ℕ) (j : ℤ) (b : Balance)
    (h : (b.fundId == j) = false) : applyAlloc tA F n j b = b := by
  unfold applyAlloc
  rw [if_neg (by simp [h])]

theorem applyAlloc_balance_of_eq (tA F : ℚ) (n : ℕ) (j : ℤ) (b : Balance)
    (h : (b.fundId == j) = true) (hnav : b.nav ≠ 0) :
    (applyAlloc tA F n j b).balance =
      tA * (if 0 < F then b.balance / F else 1 / (n : ℚ)) := by
  unfold applyAlloc
  rw [if_pos h]
  show (tA * _ / b.nav) * b.nav = _
  rw [div_mul_cancel₀ _ hnav]

theorem stepRealloc_eq_map {allocations : List (ℤ × Option ℚ)} {T : ℚ}
    {ub : List Balance} {fd : Fund} {p : ℚ}
    (hl : jsLookup allocations fd.id = some (some p)) :
    stepRealloc allocations T ub fd =
      ub.map (applyAlloc (T * p / 100) (fundTotal ub fd.id)
        ((ub.filter (fun b => b.fundId == fd.id)).length) fd.id) := by
  simp only [stepRealloc, hl]
  rfl

theorem stepRealloc_navs {allocations : List (ℤ × Option ℚ)} {T : ℚ}
    {ub : List Balance} {fd : Fund} (h : ∀ e ∈ ub, e.nav ≠ 0) :
    ∀ e ∈ stepRealloc allocations T ub fd, e.nav ≠ 0 := by
  intro e he
  cases hl : jsLookup allocations fd.id with
  | none =>
      rw [stepRealloc, hl] at he
      exact h e he
  | some op =>
      cases op with
      | none =>
          rw [stepRealloc, hl] at he
          exact h e he
      | some p =>
          rw [stepRealloc_eq_map hl] at he
          rcases List.mem_map.mp he with ⟨b, hb, rfl⟩
          rw [applyAlloc_nav]
          exact h b hb

theorem exists_fundId_map {h : Balance → Balance} (hid : ∀ b, (h b).fundId = b.fundId)
    {ub : List Balance} {j : ℤ} (hx : ∃ e ∈ ub, e.fundId = j) :
    ∃ e ∈ ub.map h, e.fundId = j := by
  obtain ⟨e, he, hej⟩ := hx
  exact ⟨h e, List.mem_map_of_mem h he, by rw [hid]; exact hej⟩

theorem stepRealloc_exists {allocations : List (ℤ × Option ℚ)} {T : ℚ}
    {ub : List Balance} {fd : Fund} {j : ℤ} (h : ∃ e ∈ ub, e.fundId = j) :
    ∃ e ∈ stepRealloc allocations T ub fd, e.fundId = j := by
  cases hl : jsLookup allocations fd.id with
  | none =>
      rw [stepRealloc, hl]
      exact h
  | some op =>
      cases op with
      | none =>
          rw [stepRealloc, hl]
          exact h
      | some p =>
          rw [stepRealloc_eq_map hl]
          exact exists_fundId_map (applyAlloc_fundId _ _ _ _) h

theorem fundTotal_stepRealloc_other {allocations : List (ℤ × Option ℚ)} {T : ℚ}
    {ub : List Balance} {fd : Fund} {j : ℤ} (hne : fd.id ≠ j) :
    fundTotal (stepRealloc allocations T ub fd) j = fundTotal ub j := by
  cases hl : jsLookup allocations fd.id with
  | none => rw [stepRealloc, hl]
  | some op =>
      cases op with
      | none => rw [stepRealloc, hl]
      | some p =>
          rw [stepRealloc_eq_map hl]
          unfold fundTotal
          rw [filter_map_of_preserve _ _ (fun b => by rw [applyAlloc_fundId]),
            List.map_map]
          refine congrArg List.sum (mapCongrMem (fun b hb => ?_))
          have hbj : b.fundId = j := by
            have := (List.mem_filter.mp hb).2
            exact beq_iff_eq.mp this
          have hbfd : (b.fundId == fd.id) = false := by
            simp [hbj, Ne.symm hne]
          show (applyAlloc _ _ _ _ b).balance = b.balance
          rw [applyAlloc_of_ne _ _ _ _ _ hbfd]

theorem sum_map_applyAlloc (tA : ℚ) (j : ℤ) (ub : List Balance)
    (hnav : ∀ e ∈ ub, e.fundId = j → e.nav ≠ 0)
    (hex : tA ≠ 0 → ∃ e ∈ ub, e.fundId = j) :
    ((ub.map (applyAlloc tA (fundTotal ub j)
        ((ub.filter (fun b => b.fundId == j)).length) j)).map (·.balance)).sum =
      (ub.map (·.balance)).sum - fundTotal ub j + tA := by
  have hsplitub := sum_map_filter_split (·.balance) (fun b => b.fundId == j) ub
  rw [← sum_map_filter_split (·.balance) (fun b => b.fundId == j)
    (ub.map (applyAlloc tA (fundTotal ub j)
      ((ub.filter (fun b => b.fundId == j)).length) j))]
  rw [filter_map_of_preserve _ _ (fun b => by rw [applyAlloc_fundId]),
    filter_map_of_preserve _ _ (fun b => by rw [applyAlloc_fundId]),
    List.map_map, List.map_map]
  have hrest : (ub.filter (fun x => !(x.fundId == j))).map
      ((·.balance) ∘ applyAlloc tA (fundTotal ub j)
        ((ub.filter (fun b => b.fundId == j)).length) j) =
      (ub.filter (fun x => !(x.fundId == j))).map (·.balance) := by
    refine mapCongrMem (fun b hb => ?_)
    have hbj : (b.fundId == j) = false := by
      have := (List.mem_filter.mp hb).2
      cases hc : (b.fundId == j) with
      | false => rfl
      | true => rw [hc] at this; cases this
    show (applyAlloc _ _ _ _ b).balance = b.balance
    rw [applyAlloc_of_ne _ _ _ _ _ hbj]
  rw [hrest]
  have hfund : (ub.filter (fun b => b.fundId == j)).map
      ((·.balance) ∘ applyAlloc tA (fundTotal ub j)
        ((ub.filter (fun b => b.fundId == j)).length) j) =
      (ub.filter (fun b => b.fundId == j)).map
        (fun b => tA * (if 0 < fundTotal ub j then b.balance / fundTotal ub j
          else 1 / (((ub.filter (fun b => b.fundId == j)).length : ℕ) : ℚ))) := by
    refine mapCongrMem (fun b hb => ?_)
    obtain ⟨hmem, hbj⟩ := List.mem_filter.mp hb
    exact applyAlloc_balance_of_eq _ _ _ _ _ hbj (hnav b hmem (beq_iff_eq.mp hbj))
  rw [hfund]
  by_cases h0 : tA = 0
  · have hzero : (ub.filter (fun b => b.fundId == j)).map
        (fun b => tA * (if 0 < fundTotal ub j then b.balance / fundTotal ub j
          else 1 / (((ub.filter (fun b => b.fundId == j)).length : ℕ) : ℚ))) =
        (ub.filter (fun b => b.fundId == j)).map (fun _ => (0 : ℚ)) :=
      mapCongrMem (fun b _ => by rw [h0, zero_mul])
    rw [hzero, sum_map_constQ, h0]
    have hft : fundTotal ub j =
        ((ub.filter (fun b => b.fundId == j)).map (·.balance)).sum := rfl
    rw [hft]
    simp only [mul_zero, add_zero]
    linarith [hsplitub]
  · obtain ⟨e, he, hej⟩ := hex h0
    have hfilne : ub.filter (fun b => b.fundId == j) ≠ [] := by
      intro hnil
      have hmem : e ∈ ub.filter (fun b => b.fundId == j) :=
        List.mem_filter.mpr ⟨he, by simp [hej]⟩
      rw [hnil] at hmem
      cases hmem
    have hn : (((ub.filter (fun b => b.fundId == j)).length : ℕ) : ℚ) ≠ 0 := by
      have hpos : 0 < (ub.filter (fun b => b.fundId == j)).length :=
        List.length_pos.mpr hfilne
      exact_mod_cast Nat.pos_iff_ne_zero.mp hpos
    by_cases hF : 0 < fundTotal ub j
    · have hprop : (ub.filter (fun b => b.fundId == j)).map
          (fun b => tA * (if 0 < fundTotal ub j then b.balance / fundTotal ub j
            else 1 / (((ub.filter (fun b => b.fundId == j)).length : ℕ) : ℚ))) =
          (ub.filter (fun b => b.fundId == j)).map
            (fun b => b.balance * (tA / fundTotal ub j)) := by
        refine mapCongrMem (fun b _ => ?_)
        rw [if_pos hF]
        ring
      rw [hprop, sum_map_mul_rightQ]
      have hFt : ((ub.filter (fun b => b.fundId == j)).map (·.balance)).sum =
          fundTotal ub j := rfl
      rw [hFt, mul_comm, div_mul_cancel₀ _ (ne_of_gt hF)]
      have hft : fundTotal ub j =
          ((ub.filter (fun b => b.fundId == j)).map (·.balance)).sum := rfl
      rw [hft]
      linarith [hsplitub]
    · have hprop : (ub.filter (fun b => b.fundId == j)).map
          (fun b => tA * (if 0 < fundTotal ub j then b.balance / fundTotal ub j
            else 1 / (((ub.filter (fun b => b.fundId == j)).length : ℕ) : ℚ))) =
          (ub.filter (fun b => b.fundId == j)).map
            (fun _ => tA * (1 / (((ub.filter (fun b => b.fundId == j)).length : ℕ) : ℚ))) := by
        refine mapCongrMem (fun b _ => ?_)
        rw [if_neg hF]
      rw [hprop, sum_map_constQ]
      have hconst : ((ub.filter (fun b => b.fundId == j)).length : ℚ) *
          (tA * (1 / (((ub.filter (fun b => b.fundId == j)).length : ℕ) : ℚ))) = tA := by
        field_simp
      rw [hconst]
      have hft : fundTotal ub j =
          ((ub.filter (fun b => b.fundId == j)).map (·.balance)).sum := rfl
      rw [hft]
      linarith [hsplitub]

theorem sum_stepRealloc {allocations : List (ℤ × Option ℚ)} {T : ℚ}
    {ub : List Balance} {fd : Fund}
    (hnav : ∀ e ∈ ub, e.nav ≠ 0)
    (hcov : numAlloc allocations fd.id = true)
    (hex : allocPct allocations fd.id ≠ 0 → ∃ e ∈ ub, e.fundId = fd.id) :
    ((stepRealloc allocations T ub fd).map (·.balance)).sum =
      (ub.map (·.balance)).sum - fundTotal ub fd.id +
        T * allocPct allocations fd.id / 100 := by
  rw [stepRealloc_eq_map (jsLookup_of_numAlloc hcov)]
  exact sum_map_applyAlloc _ _ _ (fun e he _ => hnav e he)
    (fun htA => hex (fun hp => htA (by rw [hp, mul_zero, zero_div])))

theorem filter_ne_comm (j j' : ℤ) (hne : j' ≠ j) :
    ∀ l : List Balance,
      (l.filter (fun x => !(x.fundId == j))).filter (fun b => b.fundId == j') =
        l.filter (fun b => b.fundId == j')
  | [] => rfl
  | b :: bs => by
      have ih := filter_ne_comm j j' hne bs
      by_cases hb : (b.fundId == j') = true
      · have hbj : (b.fundId == j) = false := by
          simp [beq_iff_eq.mp hb, hne]
        simp [List.filter_cons, hb, hbj, ih]
      · by_cases hbj : (b.fundId == j) = true
        · simp [List.filter_cons, hb, hbj, ih]
        · simp [List.filter_cons, hb, hbj, ih]

theorem partition_sum :
    ∀ (ids : List ℤ) (l : List Balance), ids.Nodup → (∀ e ∈ l, e.fundId ∈ ids) →
      (l.map (·.balance)).sum = (ids.map (fun j => fundTotal l j)).sum
  | [], l, _, hmem => by
      cases l with
      | nil => simp
      | cons e es => exact absurd (hmem e (List.mem_cons_self e es)) (List.not_mem_nil _)
  | j :: ids', l, hnodup, hmem => by
      have hjtail : j ∉ ids' := (List.nodup_cons.mp hnodup).1
      have hmem' : ∀ e ∈ l.filter (fun x => !(x.fundId == j)), e.fundId ∈ ids' := by
        intro e he'
        obtain ⟨hel, hne⟩ := List.mem_filter.mp he'
        have hnej : e.fundId ≠ j := by
          intro heq
          rw [heq] at hne
          simp at hne
        rcases List.mem_cons.mp (hmem e hel) with heq | hin
        · exact absurd heq hnej
        · exact hin
      have ih := partition_sum ids' (l.filter (fun x => !(x.fundId == j)))
        (List.nodup_cons.mp hnodup).2 hmem'
      have hcong : ids'.map (fun j' => fundTotal (l.filter (fun x => !(x.fundId == j))) j') =
          ids'.map (fun j' => fundTotal l j') := by
        refine mapCongrMem (fun j' hj' => ?_)
        have hne : j' ≠ j := fun heq => hjtail (heq ▸ hj')
        unfold fundTotal
        rw [filter_ne_comm j j' hne]
      rw [hcong] at ih
      have hsplit := sum_map_filter_split (·.balance) (fun b => b.fundId == j) l
      rw [List.map_cons, List.sum_cons]
      have hft : fundTotal l j = ((l.filter (fun b => b.fundId == j)).map (·.balance)).sum := rfl
      rw [hft]
      linarith [hsplit, ih]

theorem foldRealloc_sum (allocations : List (ℤ × Option ℚ)) (T : ℚ) :
    ∀ (funds : List Fund) (ub : List Balance),
      (funds.map Fund.id).Nodup →
      (∀ e ∈ ub, e.nav ≠ 0) →
      (∀ fd ∈ funds, numAlloc allocations fd.id = true) →
      (∀ fd ∈ funds, allocPct allocations fd.id ≠ 0 → ∃ e ∈ ub, e.fundId = fd.id) →
      ((funds.foldl (stepRealloc allocations T) ub).map (·.balance)).sum =
        (ub.map (·.balance)).sum
          - (funds.map (fun fd => fundTotal ub fd.id)).sum
          + (funds.map (fun fd => T * allocPct allocations fd.id / 100)).sum
  | [], ub, _, _, _, _ => by simp
  | fd :: fds, ub, hnodup, hnav, hcov, hex => by
      have hnodup1 : (fd.id :: fds.map Fund.id).Nodup := by simpa using hnodup
      have hhead : fd.id ∉ fds.map Fund.id := (List.nodup_cons.mp hnodup1).1
      have htail : (fds.map Fund.id).Nodup := (List.nodup_cons.mp hnodup1).2
      have ih := foldRealloc_sum allocations T fds (stepRealloc allocations T ub fd) htail
        (stepRealloc_navs hnav)
        (fun f hf => hcov f (List.mem_cons_of_mem fd hf))
        (fun f hf hp => stepRealloc_exists (hex f (List.mem_cons_of_mem fd hf) hp))
      rw [List.foldl_cons, ih,
        sum_stepRealloc hnav (hcov fd (List.mem_cons_self fd fds))
          (hex fd (List.mem_cons_self fd fds))]
      have hcong : fds.map (fun f => fundTotal (stepRealloc allocations T ub fd) f.id) =
          fds.map (fun f => fundTotal ub f.id) := by
        refine mapCongrMem (fun f hf => ?_)
        exact fundTotal_stepRealloc_other
          (fun heq => hhead (heq ▸ List.mem_map_of_mem Fund.id hf))
      rw [hcong, List.map_cons, List.sum_cons, List.map_cons, List.sum_cons]
      ring

/-- C2 (amended): the reallocation preview conserves the grand total
— exactly over ℚ, hence within 1e-6 — when the allocation map gives a
numeric percentage to every listed fund, those percentages sum to
100, the listed fund ids are distinct (per the data model), every
balance entry belongs to a listed fund, every NAV is nonzero, and
every listed fund with a nonzero percentage holds at least one
balance entry. -/
theorem realloc_total_conserved (allocations : List (ℤ × Option ℚ))
    (bals : List Balance) (funds : List Fund)
    (hnodup : (funds.map Fund.id).Nodup)
    (hcov : ∀ fd ∈ funds, numAlloc allocations fd.id = true)
    (hsum : (funds.map (fun fd => allocPct allocations fd.id)).sum = 100)
    (hmem : ∀ e ∈ bals, e.fundId ∈ funds.map Fund.id)
    (hnav : ∀ e ∈ bals, e.nav ≠ 0)
    (hex : ∀ fd ∈ funds, allocPct allocations fd.id ≠ 0 → ∃ e ∈ bals, e.fundId = fd.id) :
    ((calculateReallocationPreview allocations bals funds).map (·.balance)).sum =
      (bals.map (·.balance)).sum := by
  unfold calculateReallocationPreview
  rw [foldRealloc_sum allocations _ funds bals hnodup hnav hcov hex]
  have hpart := partition_sum (funds.map Fund.id) bals hnodup hmem
  rw [List.map_map] at hpart
  have hcomp : List.map ((fun j => fundTotal bals j) ∘ Fund.id) funds =
      List.map (fun fd => fundTotal bals fd.id) funds := rfl
  rw [hcomp] at hpart
  have hpart' : (funds.map (fun fd => fundTotal bals fd.id)).sum =
      (bals.map (·.balance)).sum := hpart.symm
  have hfac : funds.map
      (fun fd => (bals.map (·.balance)).sum * allocPct allocations fd.id / 100) =
      funds.map (fun fd => allocPct allocations fd.id * ((bals.map (·.balance)).sum / 100)) :=
    mapCongrMem (fun fd _ => by ring)
  rw [hfac, sum_map_mul_rightQ, hsum, hpart']
  ring

/-- Counterexample to C2 as stated: the allocation map `{1: 50, 2: 50}`
assigns a percentage to both listed funds and sums to 100, but fund 2
holds no balance entry, so its 50% share is placed nowhere: the grand
total drops from 1000 to 500, far beyond the 1e-6 tolerance. -/
theorem realloc_total_counterexample :
    (∀ fd ∈ ([⟨1⟩, ⟨2⟩] : List Fund), numAlloc [(1, some 50), (2, some 50)] fd.id = true) ∧
    ((([⟨1⟩, ⟨2⟩] : List Fund).map
      (fun fd => allocPct [(1, some 50), (2, some 50)] fd.id)).sum = 100) ∧
    ¬ (|((calculateReallocationPreview [(1, some 50), (2, some 50)]
          [⟨1, 1, 100, 10, 1000⟩] [⟨1⟩, ⟨2⟩]).map (·.balance)).sum -
        (([⟨1, 1, 100, 10, 1000⟩] : List Balance).map (·.balance)).sum| ≤ 1 / 1000000) := by
  refine ⟨by decide, ?_, ?_⟩
  · norm_num [allocPct, jsLookup, List.find?,
      show ((1 : ℤ) == 2) = false from rfl]
  · have hpre : calculateReallocationPreview [(1, some 50), (2, some 50)]
        [⟨1, 1, 100, 10, 1000⟩] [⟨1⟩, ⟨2⟩] = [⟨1, 1, 50, 10, 500⟩] := by
      norm_num [calculateReallocationPreview, stepRealloc, applyAlloc, jsLookup,
        fundTotal, calculateUnitsFromAmount, calculateBalance, List.find?,
        List.filter_cons, List.foldl, Balance.mk.injEq,
        show ((1 : ℤ) == 2) = false from rfl]
    rw [hpre]
    norm_num

/-- Witness for the amended C2 on the spec's reallocation scenario:
`{1: 25, 2: 75}` over two funded entries keeps the grand total. -/
theorem realloc_total_conserved_witness :
    ((calculateReallocationPreview [(1, some 25), (2, some 75)]
      [⟨1, 1, 100, 10, 1000⟩, ⟨2, 1, 50, 20, 1000⟩] [⟨1⟩, ⟨2⟩]).map (·.balance)).sum =
      (([⟨1, 1, 100, 10, 1000⟩, ⟨2, 1, 50, 20, 1000⟩] : List Balance).map (·.balance)).sum :=
  realloc_total_conserved [(1, some 25), (2, some 75)]
    [⟨1, 1, 100, 10, 1000⟩, ⟨2, 1, 50, 20, 1000⟩] [⟨1⟩, ⟨2⟩]
    (by decide) (by decide)
    (by norm_num [allocPct, jsLookup, List.find?,
      show ((1 : ℤ) == 2) = false from rfl])
    (by decide) (by decide) (by decide)

end Portal
